import Mathlib

/-
Verification of the route-evaluation and live-recomputation engine of
crypto-trade-router (src/server/index.js), over a shallow embedding of its
pure computations.  JavaScript numbers are modelled as exact rationals;
where the code can produce NaN or an infinity (the lot adjuster's division
and modulo), values live in `JVal`.  The external collaborators imported
from ./binance (order-book fetches, the fill simulators `calculateSellData`
and `calculateBuyData`, min-step metadata, last-price lookups) are not part
of this repository's sources, so the embedded functions take them as
parameters and the theorems quantify over them.
-/

/-- A JavaScript number in the fragment this program exercises: `nan` models
NaN, `inf s` a signed infinity (`s = true` is positive infinity), `num q` a
finite value as an exact rational.  Negative zero is not distinguished from
zero (no computation below distinguishes them). -/
inductive JVal where
  | nan : JVal
  | inf : Bool → JVal
  | num : ℚ → JVal
deriving DecidableEq

/-- Truncation toward zero, as in JavaScript's remainder operation. -/
def jsTrunc (q : ℚ) : ℤ := if 0 ≤ q then ⌊q⌋ else ⌈q⌉

/-- The remainder `a % b` of finite JavaScript numbers for `b ≠ 0`:
`a - b * trunc (a / b)`, so the sign follows the dividend. -/
def jsRem (a b : ℚ) : ℚ := a - b * jsTrunc (a / b)

/-- JavaScript subtraction on `JVal`. -/
def JVal.sub : JVal → JVal → JVal
  | nan, _ => nan
  | _, nan => nan
  | inf s, inf t => if s = t then nan else inf s
  | inf s, num _ => inf s
  | num _, inf t => inf (!t)
  | num a, num b => num (a - b)

/-- JavaScript multiplication on `JVal`. -/
def JVal.mul : JVal → JVal → JVal
  | nan, _ => nan
  | _, nan => nan
  | inf s, inf t => inf (s = t)
  | inf s, num b => if b = 0 then nan else inf (s = decide (0 < b))
  | num a, inf t => if a = 0 then nan else inf (t = decide (0 < a))
  | num a, num b => num (a * b)

/-- JavaScript division on `JVal` (division of a nonzero finite value by
zero gives an infinity, `0 / 0` gives NaN). -/
def JVal.div : JVal → JVal → JVal
  | nan, _ => nan
  | _, nan => nan
  | inf _, inf _ => nan
  | inf s, num b => if b = 0 then inf s else inf (s = decide (0 < b))
  | num _, inf _ => num 0
  | num a, num b =>
    if b = 0 then (if a = 0 then nan else inf (decide (0 < a)))
    else num (a / b)

/-- JavaScript remainder on `JVal`: any remainder with divisor zero, an
infinite dividend, or a NaN operand is NaN; a finite dividend modulo an
infinity is the dividend itself. -/
def JVal.mod : JVal → JVal → JVal
  | nan, _ => nan
  | _, nan => nan
  | inf _, _ => nan
  | num a, inf _ => num a
  | num a, num b => if b = 0 then nan else num (jsRem a b)

/-- The buy-side record consumed by `adjustBuyCoin` (src/server/index.js:64):
the buy leg of a route after a min-step has been attached. -/
structure AdjustableBuyCoin where
  market : String
  amountBuyable : ℚ
  sharesBuyable : ℚ
  averageBuyPrice : ℚ
  minStep : ℚ
deriving DecidableEq

/-- The record produced by `adjustBuyCoin`: the three recomputed fields are
JavaScript numbers (they are NaN when `minStep = 0`), the fields the spread
copies through are unchanged. -/
structure AdjustedBuyCoin where
  market : String
  averageBuyPrice : ℚ
  minStep : ℚ
  sharesBuyable : JVal
  amountBuyable : JVal
  leftOver : JVal
deriving DecidableEq

/-- Embeds `adjustBuyCoin` (src/server/index.js:64-79): recompute the buyable
share count from `amountBuyable / averageBuyPrice`, drop the remainder modulo
`minStep`, and re-express the dropped shares as leftover proceeds. -/
def adjustBuyCoin (buyCoin : AdjustableBuyCoin) : AdjustedBuyCoin :=
  let sharesBuyable := JVal.div (.num buyCoin.amountBuyable) (.num buyCoin.averageBuyPrice)
  let unBuyableShares := JVal.mod sharesBuyable (.num buyCoin.minStep)
  let actualSharesBuyable := JVal.sub sharesBuyable unBuyableShares
  let actualAmountBuyable :=
    JVal.sub (.num buyCoin.amountBuyable) (JVal.mul unBuyableShares (.num buyCoin.averageBuyPrice))
  let leftOver := JVal.sub (.num buyCoin.amountBuyable) actualAmountBuyable
  { market := buyCoin.market
    averageBuyPrice := buyCoin.averageBuyPrice
    minStep := buyCoin.minStep
    sharesBuyable := actualSharesBuyable
    amountBuyable := actualAmountBuyable
    leftOver := leftOver }

/-- Output record of the sell-side fill simulator `calculateSellData`
(imported from ./binance, outside this repository's src/). -/
structure SellData where
  sharesSellable : ℚ
  averageSellPrice : ℚ
  saleTotal : ℚ
deriving DecidableEq

/-- Output record of the buy-side fill simulator `calculateBuyData`
(imported from ./binance, outside this repository's src/). -/
structure BuyData where
  amountSpent : ℚ
  sharesPossibleToBuy : ℚ
  averageBuyPrice : ℚ
deriving DecidableEq

/-- An order-book snapshot: price levels as (price, quantity) pairs, bids
best-first, asks best-first. -/
structure OrderBook where
  bids : List (ℚ × ℚ)
  asks : List (ℚ × ℚ)
deriving DecidableEq

/-- Min-step metadata for the two markets of a route, as returned by
`getMinStepsBinance`. -/
structure MinStepPair where
  sellCoin : ℚ
  buyCoin : ℚ
deriving DecidableEq

/-- The exchange-connectivity collaborator (./binance, not under src/): the
embedded functions take it as a parameter and the theorems quantify over it.
`getOrders` is fallible; the error value stands for a failed order-book
fetch. -/
structure Binance where
  getOrders : String → Except String OrderBook
  getMinSteps : String → String → MinStepPair
  getPrice : String → ℚ
  calculateSellData : List (ℚ × ℚ) → ℚ → SellData
  calculateBuyData : List (ℚ × ℚ) → ℚ → BuyData

/-- Equality of embedded fallible results is decidable (used to evaluate the
embedded functions at concrete inputs). -/
instance {e a : Type} [DecidableEq e] [DecidableEq a] : DecidableEq (Except e a) := fun x y =>
  match x, y with
  | .ok v, .ok w => if h : v = w then .isTrue (by rw [h]) else .isFalse (by simp [h])
  | .error v, .error w => if h : v = w then .isTrue (by rw [h]) else .isFalse (by simp [h])
  | .ok _, .error _ => .isFalse (by simp)
  | .error _, .ok _ => .isFalse (by simp)

/-- Sell leg of a candidate route (src/server/index.js:117-121). -/
structure SellLeg where
  market : String
  averageSellPrice : ℚ
  sharesSellable : ℚ
deriving DecidableEq

/-- Buy leg of a candidate route (src/server/index.js:122-127). -/
structure BuyLeg where
  market : String
  amountBuyable : ℚ
  sharesBuyable : ℚ
  averageBuyPrice : ℚ
deriving DecidableEq

/-- Bridge-asset record of a candidate route (src/server/index.js:128-131). -/
structure BaseCoin where
  name : String
  market : String
deriving DecidableEq

/-- A candidate route as produced inside `getBestRoute`'s map over the bridge
coins (src/server/index.js:116-133). -/
structure Route where
  sellCoin : SellLeg
  buyCoin : BuyLeg
  baseCoin : BaseCoin
  ratio : ℚ
deriving DecidableEq

/-- Embeds one iteration of `getBestRoute`'s `Promise.map` body
(src/server/index.js:90-134): fetch both order books for the bridge coin,
simulate the sell leg for the entered share count, feed its `saleTotal` to
the buy-leg simulation, and record the ratio of the two average prices. -/
def buildRoute (bx : Binance) (sellCoinName buyCoinName : String) (sharesEntered : ℚ)
    (baseCoin : String) : Except String Route := do
  let sellCoinSymbol := sellCoinName ++ baseCoin
  let buyCoinSymbol := buyCoinName ++ baseCoin
  let sellOrders ← bx.getOrders sellCoinSymbol
  let buyOrders ← bx.getOrders buyCoinSymbol
  let sd := bx.calculateSellData sellOrders.bids sharesEntered
  let bd := bx.calculateBuyData buyOrders.asks sd.saleTotal
  pure
    { sellCoin :=
        { market := sellCoinSymbol
          averageSellPrice := sd.averageSellPrice
          sharesSellable := sd.sharesSellable }
      buyCoin :=
        { market := buyCoinSymbol
          amountBuyable := bd.amountSpent
          sharesBuyable := bd.sharesPossibleToBuy
          averageBuyPrice := bd.averageBuyPrice }
      baseCoin := { name := baseCoin, market := baseCoin ++ "USDT" }
      ratio := sd.averageSellPrice / bd.averageBuyPrice }

/-- Embeds the `Promise.map` over all bridge coins: every candidate must
resolve for the whole evaluation to resolve; a single rejection rejects the
whole map (there is no per-candidate catch in src/server/index.js:90-134). -/
def evaluateCandidates (bx : Binance) (sellCoinName buyCoinName : String)
    (sharesEntered : ℚ) : List String → Except String (List Route)
  | [] => .ok []
  | c :: cs => do
    let r ← buildRoute bx sellCoinName buyCoinName sharesEntered c
    let rs ← evaluateCandidates bx sellCoinName buyCoinName sharesEntered cs
    pure (r :: rs)

/-- The sort comparator of src/server/index.js:137-144, read as a total
"may come before" relation: `routeLE r1 r2` holds exactly when the
comparator's value on `(r1, r2)` is not positive, i.e. descending
`sharesSellable` first, then descending ratio.  `Array.prototype.sort` is
required to be stable, and for this consistent comparator the stable sort is
unique, so a stable merge sort by this relation is the sorted array. -/
def routeLE (route1 route2 : Route) : Bool :=
  if route1.sellCoin.sharesSellable ≠ route2.sellCoin.sharesSellable then
    decide (route2.sellCoin.sharesSellable < route1.sellCoin.sharesSellable)
  else
    decide (route2.ratio ≤ route1.ratio)

/-- The `possibleRoutes.sort(...)` call of src/server/index.js:137. -/
def sortRoutes (possibleRoutes : List Route) : List Route :=
  possibleRoutes.mergeSort routeLE

/-- Sell leg of the returned best route after `addBinanceMinSteps` spread its
min-step into it (src/server/index.js:43-53). -/
structure BestSellLeg where
  market : String
  averageSellPrice : ℚ
  sharesSellable : ℚ
  minStep : ℚ
deriving DecidableEq

/-- The `worstRoute` summary attached to the best route
(src/server/index.js:163-168). -/
structure WorstRouteInfo where
  sharesBuyable : ℚ
  baseCoin : String
  averageSellPrice : ℚ
  averageBuyPrice : ℚ
deriving DecidableEq

/-- The value resolved by `getBestRoute` (src/server/index.js:152-170): the
top-ranked route with min-steps attached, its buy leg lot-adjusted, and the
bottom-ranked route's key figures as `worstRoute`. -/
structure BestRoute where
  sellCoin : BestSellLeg
  buyCoin : AdjustedBuyCoin
  baseCoin : BaseCoin
  ratio : ℚ
  worstRoute : WorstRouteInfo
deriving DecidableEq

/-- Embeds `getBestRoute` (src/server/index.js:82-171).  An empty candidate
list makes `sortedRoutes[0]` undefined and the subsequent destructuring
throw; that crash is the error branch of the empty match. -/
def getBestRoute (bx : Binance) (sellCoinName buyCoinName : String)
    (bridgeCoins : List String) (sharesEntered : ℚ) : Except String BestRoute :=
  (evaluateCandidates bx sellCoinName buyCoinName sharesEntered bridgeCoins).bind
    fun possibleRoutes =>
      match sortRoutes possibleRoutes with
      | [] => .error "TypeError: cannot destructure undefined"
      | bestRoute :: rest =>
        let steps := bx.getMinSteps bestRoute.sellCoin.market bestRoute.buyCoin.market
        let adjustedBuyCoin := adjustBuyCoin
          { market := bestRoute.buyCoin.market
            amountBuyable := bestRoute.buyCoin.amountBuyable
            sharesBuyable := bestRoute.buyCoin.sharesBuyable
            averageBuyPrice := bestRoute.buyCoin.averageBuyPrice
            minStep := steps.buyCoin }
        let worstRoute := (bestRoute :: rest).getLast (List.cons_ne_nil _ _)
        .ok
          { sellCoin :=
              { market := bestRoute.sellCoin.market
                averageSellPrice := bestRoute.sellCoin.averageSellPrice
                sharesSellable := bestRoute.sellCoin.sharesSellable
                minStep := steps.sellCoin }
            buyCoin := adjustedBuyCoin
            baseCoin := bestRoute.baseCoin
            ratio := bestRoute.ratio
            worstRoute :=
              { sharesBuyable := worstRoute.buyCoin.sharesBuyable
                baseCoin := worstRoute.baseCoin.name
                averageSellPrice := worstRoute.sellCoin.averageSellPrice
                averageBuyPrice := worstRoute.buyCoin.averageBuyPrice } }

/-- Aggregated figures of one executed market order, as the /trade handler
obtains them from `aggregateFilledTradesBinance(res.fills)` and
`res.fills[0]` (src/server/index.js:360-367, 381-383). -/
structure AggregatedFill where
  symbol : String
  price : ℚ
  qty : ℚ
  commission : ℚ
  commissionAsset : String
  tradeId : ℕ
deriving DecidableEq

/-- The commission rate selection of src/server/index.js:369 and 385: the
discounted rate exactly when the commission asset is the platform's BNB
token. -/
def commissionDecimal (commissionAsset : String) : ℚ :=
  if commissionAsset = "BNB" then 5 / 100000 else 1 / 10000

/-- One leg of the trade report sent back by the /trade handler
(src/server/index.js:403-421). -/
structure TradeLegReport where
  market : String
  price : ℚ
  quantity : ℚ
  commission : ℚ
  commissionAsset : String
  total : ℚ
  tradeId : ℕ
deriving DecidableEq

/-- Embeds the settlement arithmetic of the /trade handler
(src/server/index.js:369-371, 385-387, 403-421): the sale total is the
aggregated sale amount minus its commission, the purchase total the
aggregated buy amount plus its commission. -/
def settleTrade (sell buy : AggregatedFill) : TradeLegReport × TradeLegReport :=
  let sellCommissionDecimal := commissionDecimal sell.commissionAsset
  let sellAmount := sell.qty * sell.price
  let sellTotal := sellAmount - sellAmount * sellCommissionDecimal
  let buyCommissionDecimal := commissionDecimal buy.commissionAsset
  let buyAmount := buy.qty * buy.price
  let buyTotal := buyAmount + buyAmount * buyCommissionDecimal
  ({ market := sell.symbol
     price := sell.price
     quantity := sell.qty
     commission := sell.commission
     commissionAsset := sell.commissionAsset
     total := sellTotal
     tradeId := sell.tradeId },
   { market := buy.symbol
     price := buy.price
     quantity := buy.qty
     commission := buy.commission
     commissionAsset := buy.commissionAsset
     total := buyTotal
     tradeId := buy.tradeId })

/-- JavaScript `Math.round`: half-way values round up (toward positive
infinity). -/
def jsRound (q : ℚ) : ℤ := ⌊q + 1 / 2⌋

/-- JavaScript `base || 10`: an absent or zero (falsy) base falls back
to 10. -/
def jsBaseOrTen : Option ℚ → ℚ
  | none => 10
  | some b => if b = 0 then 10 else b

/-- Embeds `numberToFixed` (src/server/index.js:175-178): round to
`precision` digits in the given base (both call sites pass no base). -/
def numberToFixed (number : ℚ) (precision : ℕ) (base : Option ℚ) : ℚ :=
  let pow := jsBaseOrTen base ^ precision
  (jsRound (number * pow) : ℚ) / pow

/-- Embeds `calculateUSDSavings` (src/server/index.js:182-199): the spread of
the best route minus the spread of the worst route, each converted to USD by
the bridge asset's quoted price — the factor is 1 when the bridge asset is
already USDT — rounded to four decimal places.  `getPrice` stands for the
awaited `getPriceBinance`. -/
def calculateUSDSavings (getPrice : String → ℚ) (bestRoute : BestRoute) : ℚ :=
  let worstRoute := bestRoute.worstRoute
  let bestBaseCoin := bestRoute.baseCoin.name
  let worstBaseCoin := worstRoute.baseCoin
  let bestSpread := bestRoute.sellCoin.averageSellPrice - bestRoute.buyCoin.averageBuyPrice
  let worstSpread := worstRoute.averageSellPrice - worstRoute.averageBuyPrice
  let bestBaseCoinSymbol := bestBaseCoin ++ "USDT"
  let worstBaseCoinSymbol := worstBaseCoin ++ "USDT"
  let bestCoinPriceUSD := if bestBaseCoin = "USDT" then 1 else getPrice bestBaseCoinSymbol
  let worstCoinPriceUSD := if worstBaseCoin = "USDT" then 1 else getPrice worstBaseCoinSymbol
  let bestSpreadUSD := bestSpread * bestCoinPriceUSD
  let worstSpreadUSD := worstSpread * worstCoinPriceUSD
  numberToFixed (bestSpreadUSD - worstSpreadUSD) 4 none

/-- Per-connection mutable state read by the two order-feed handlers of
`subscribeToOrders`: the closure-captured `SHARES_FOR_ORDER_UPDATES`
(src/server/index.js:462) and `saleProceeds` (src/server/index.js:468). -/
structure SessionState where
  sharesForOrderUpdates : ℚ
  saleProceeds : ℚ
deriving DecidableEq

/-- The asynchronous events a live session reacts to: an order-book update
on the sell market (src/server/index.js:480), one on the buy market
(src/server/index.js:508), and the caller changing the entered quantity
(src/server/index.js:542). -/
inductive SessionEvent where
  | sellCoinOrders : OrderBook → SessionEvent
  | buyCoinOrders : OrderBook → SessionEvent
  | sharesUpdated : ℚ → SessionEvent
deriving DecidableEq

/-- Payload of the `updateSellCoinInfo` emission
(src/server/index.js:493-503). -/
structure SellCoinInfo where
  market : String
  bid : ℚ
  ask : ℚ
  averageSellPrice : ℚ
  sharesSellable : ℚ
deriving DecidableEq

/-- Payload of the `updateBuyCoinInfo` emission (src/server/index.js:519-533):
the lot-adjusted buy figures together with the top-of-book prices that the
handler merges into the same object. -/
structure BuyCoinInfo where
  adjusted : AdjustedBuyCoin
  bid : ℚ
  ask : ℚ
deriving DecidableEq

/-- A broadcast produced by one handler invocation. -/
inductive SessionBroadcast where
  | updateSellCoinInfo : SellCoinInfo → SessionBroadcast
  | updateBuyCoinInfo : BuyCoinInfo → SessionBroadcast
deriving DecidableEq

/-- The fixed data of one `subscribeToOrders` session: the two fill
simulators from ./binance and the client-supplied coin records.  Of the
spread `...buyCoin` only the fields the handlers and the adjuster read are
kept: the market and the min-step. -/
structure SessionParams where
  calculateSellData : List (ℚ × ℚ) → ℚ → SellData
  calculateBuyData : List (ℚ × ℚ) → ℚ → BuyData
  sellCoinSymbol : String
  buyCoinMarket : String
  buyCoinMinStep : ℚ

/-- One handler invocation of the live session (src/server/index.js:480-534,
542-544).  The sell handler recomputes the sell leg at the current entered
quantity and caches its `saleTotal` before touching the top of the book, so
the cache updates even when `bids[0][0]` or `asks[0][0]` throws on an empty
side (`none` output: nothing is broadcast).  The buy handler recomputes the
buy leg from the cached `saleProceeds` only, lot-adjusts it and broadcasts;
it never touches the state.  (The handler destructures `sharesBuyable` from
a simulator result whose field is named `sharesPossibleToBuy`; the adjuster
overwrites that field without reading it, so the model passes 0.)  A
quantity change only stores the new quantity. -/
def stepSession (p : SessionParams) (s : SessionState) :
    SessionEvent → SessionState × Option SessionBroadcast
  | .sellCoinOrders ob =>
    let sd := p.calculateSellData ob.bids s.sharesForOrderUpdates
    let s' := { s with saleProceeds := sd.saleTotal }
    match ob.bids, ob.asks with
    | (bidPrice, _) :: _, (askPrice, _) :: _ =>
      (s', some (.updateSellCoinInfo
        { market := p.sellCoinSymbol
          bid := bidPrice
          ask := askPrice
          averageSellPrice := sd.averageSellPrice
          sharesSellable := sd.sharesSellable }))
    | _, _ => (s', none)
  | .buyCoinOrders ob =>
    let bd := p.calculateBuyData ob.asks s.saleProceeds
    match ob.bids, ob.asks with
    | (bidPrice, _) :: _, (askPrice, _) :: _ =>
      let adjustedBuyInfo := adjustBuyCoin
        { market := p.buyCoinMarket
          amountBuyable := bd.amountSpent
          sharesBuyable := 0
          averageBuyPrice := bd.averageBuyPrice
          minStep := p.buyCoinMinStep }
      (s, some (.updateBuyCoinInfo
        { adjusted := adjustedBuyInfo, bid := bidPrice, ask := askPrice }))
    | _, _ => (s, none)
  | .sharesUpdated sharesEntered =>
    ({ s with sharesForOrderUpdates := sharesEntered }, none)

/-- Runs a session from a state through a sequence of events, collecting the
broadcasts in order. -/
def runSession (p : SessionParams) (s : SessionState) :
    List SessionEvent → SessionState × List SessionBroadcast
  | [] => (s, [])
  | e :: es =>
    let step := stepSession p s e
    let rest := runSession p step.1 es
    (rest.1, step.2.toList ++ rest.2)

/-- A concrete adjustable buy leg used to instantiate the lot-adjuster
theorems. -/
def sampleBuyCoin : AdjustableBuyCoin :=
  { market := "ETHBTC", amountBuyable := 10, sharesBuyable := 5,
    averageBuyPrice := 2, minStep := 1 }

/-- The same buy leg with a different caller-supplied `sharesBuyable`. -/
def sampleBuyCoinAlt : AdjustableBuyCoin :=
  { market := "ETHBTC", amountBuyable := 10, sharesBuyable := 999,
    averageBuyPrice := 2, minStep := 1 }

/-- A concrete order book used to instantiate the evaluation theorems. -/
def obSample : OrderBook := { bids := [(2, 10)], asks := [(1, 10)] }

/-- A connectivity collaborator whose fetches all succeed, with simple
concrete fill simulators. -/
def bxSample : Binance :=
  { getOrders := fun _ => .ok obSample
    getMinSteps := fun _ _ => { sellCoin := 1, buyCoin := 1 }
    getPrice := fun _ => 1
    calculateSellData := fun _ _ =>
      { sharesSellable := 8, averageSellPrice := 2, saleTotal := 16 }
    calculateBuyData := fun _ _ =>
      { amountSpent := 16, sharesPossibleToBuy := 16, averageBuyPrice := 1 } }

/-- The same collaborator with the order-book fetch for the symbol "AY"
failing. -/
def bxOneFetchFails : Binance :=
  { bxSample with
    getOrders := fun s =>
      if s = "AY" then .error "MarketUnavailable: AY" else .ok obSample }

/-- The candidate route `bxSample` produces for sell coin "A", buy coin "B",
bridge coin "X" and 8 entered shares. -/
def routeAX : Route :=
  { sellCoin := { market := "AX", averageSellPrice := 2, sharesSellable := 8 }
    buyCoin := { market := "BX", amountBuyable := 16, sharesBuyable := 16, averageBuyPrice := 1 }
    baseCoin := { name := "X", market := "XUSDT" }
    ratio := 2 / 1 }

/-- A best route whose bridge assets are USDT on both ends, with a best
spread of 2 and a worst spread of 1: the spec's savings example. -/
def usdtExampleRoute : BestRoute :=
  { sellCoin := { market := "AUSDT", averageSellPrice := 3, sharesSellable := 8, minStep := 1 }
    buyCoin := { market := "BUSDT", averageBuyPrice := 1, minStep := 1,
                 sharesBuyable := .num 8, amountBuyable := .num 8, leftOver := .num 0 }
    baseCoin := { name := "USDT", market := "USDTUSDT" }
    ratio := 3
    worstRoute := { sharesBuyable := 8, baseCoin := "USDT",
                    averageSellPrice := 2, averageBuyPrice := 1 } }

/-- Concrete session parameters used to instantiate the live-session
theorems. -/
def sampleSessionParams : SessionParams :=
  { calculateSellData := fun _ shares =>
      { sharesSellable := shares, averageSellPrice := 2, saleTotal := 2 * shares }
    calculateBuyData := fun _ amount =>
      { amountSpent := amount, sharesPossibleToBuy := amount, averageBuyPrice := 1 }
    sellCoinSymbol := "ETCBTC"
    buyCoinMarket := "LTCBTC"
    buyCoinMinStep := 1 }

/-
Theorems.  Each claim of the specification is settled by exactly one
theorem below; witnesses instantiate the hypothesis-bearing ones at
concrete inputs.
-/

/-- C3.  The specification requires `minStep = 0` to be a pass-through; the
code instead computes `sharesBuyable % 0`, which is NaN in JavaScript, and
the NaN propagates into every recomputed field of the adjusted buy leg. -/
theorem adjustBuyCoin_minStep_zero_nan :
    (adjustBuyCoin
      { market := "ETHBTC", amountBuyable := 10, sharesBuyable := 5,
        averageBuyPrice := 2, minStep := 0 }).sharesBuyable = JVal.nan ∧
    (adjustBuyCoin
      { market := "ETHBTC", amountBuyable := 10, sharesBuyable := 5,
        averageBuyPrice := 2, minStep := 0 }).amountBuyable = JVal.nan ∧
    (adjustBuyCoin
      { market := "ETHBTC", amountBuyable := 10, sharesBuyable := 5,
        averageBuyPrice := 2, minStep := 0 }).leftOver = JVal.nan := by
  refine ⟨?_, ?_, ?_⟩ <;> decide

/-- Helper for the lot-adjuster: for a nonnegative dividend and a positive
divisor the JavaScript remainder is the floor-based remainder and is
nonnegative. -/
theorem jsRem_nonneg_eq {x S : ℚ} (hx : 0 ≤ x) (hS : 0 < S) :
    jsRem x S = x - S * ⌊x / S⌋ ∧ 0 ≤ jsRem x S := by
  have hq : (0:ℚ) ≤ x / S := div_nonneg hx hS.le
  have h1 : jsRem x S = x - S * ⌊x / S⌋ := by simp [jsRem, jsTrunc, hq]
  refine ⟨h1, ?_⟩
  rw [h1]
  have h2 : (⌊x / S⌋ : ℚ) ≤ x / S := Int.floor_le _
  have h3 : S * (⌊x / S⌋ : ℚ) ≤ S * (x / S) := mul_le_mul_of_nonneg_left h2 hS.le
  have h4 : S * (x / S) = x := by field_simp
  linarith

/-- C4.  With a positive `minStep`, a positive average price and a
nonnegative amount, the adjusted quantity is a finite number not exceeding
the recomputed buyable quantity, it is an exact integer multiple of the
step, and the leftover plus the adjusted amount reproduce the original
amount exactly. -/
theorem adjustBuyCoin_step_pos (b : AdjustableBuyCoin)
    (hS : 0 < b.minStep) (hP : 0 < b.averageBuyPrice) (hA : 0 ≤ b.amountBuyable) :
    ∃ q a l : ℚ,
      (adjustBuyCoin b).sharesBuyable = JVal.num q ∧
      (adjustBuyCoin b).amountBuyable = JVal.num a ∧
      (adjustBuyCoin b).leftOver = JVal.num l ∧
      q ≤ b.amountBuyable / b.averageBuyPrice ∧
      (∃ k : ℤ, q = b.minStep * k) ∧
      l + a = b.amountBuyable := by
  have hPne : b.averageBuyPrice ≠ 0 := hP.ne'
  have hSne : b.minStep ≠ 0 := hS.ne'
  have hq : (0:ℚ) ≤ b.amountBuyable / b.averageBuyPrice := div_nonneg hA hP.le
  obtain ⟨hrem, hremnn⟩ := jsRem_nonneg_eq hq hS
  have hdiv : JVal.div (.num b.amountBuyable) (.num b.averageBuyPrice) =
      .num (b.amountBuyable / b.averageBuyPrice) := by
    simp [JVal.div, hPne]
  have hmod : JVal.mod (.num (b.amountBuyable / b.averageBuyPrice)) (.num b.minStep) =
      .num (jsRem (b.amountBuyable / b.averageBuyPrice) b.minStep) := by
    simp [JVal.mod, hSne]
  refine ⟨b.amountBuyable / b.averageBuyPrice -
            jsRem (b.amountBuyable / b.averageBuyPrice) b.minStep,
          b.amountBuyable -
            jsRem (b.amountBuyable / b.averageBuyPrice) b.minStep * b.averageBuyPrice,
          b.amountBuyable -
            (b.amountBuyable -
              jsRem (b.amountBuyable / b.averageBuyPrice) b.minStep * b.averageBuyPrice),
          ?_, ?_, ?_, ?_, ?_, ?_⟩
  · simp [adjustBuyCoin, hdiv, hmod, JVal.sub]
  · simp [adjustBuyCoin, hdiv, hmod, JVal.sub, JVal.mul]
  · simp [adjustBuyCoin, hdiv, hmod, JVal.sub, JVal.mul]
  · linarith
  · exact ⟨⌊(b.amountBuyable / b.averageBuyPrice) / b.minStep⌋, by rw [hrem]; ring⟩
  · ring

/-- Witness for C4 at a concrete buy leg. -/
theorem adjustBuyCoin_step_pos_witness :
    ∃ q a l : ℚ,
      (adjustBuyCoin sampleBuyCoin).sharesBuyable = JVal.num q ∧
      (adjustBuyCoin sampleBuyCoin).amountBuyable = JVal.num a ∧
      (adjustBuyCoin sampleBuyCoin).leftOver = JVal.num l ∧
      q ≤ sampleBuyCoin.amountBuyable / sampleBuyCoin.averageBuyPrice ∧
      (∃ k : ℤ, q = sampleBuyCoin.minStep * k) ∧
      l + a = sampleBuyCoin.amountBuyable :=
  adjustBuyCoin_step_pos sampleBuyCoin (by norm_num [sampleBuyCoin]) (by norm_num [sampleBuyCoin])
    (by norm_num [sampleBuyCoin])

/-- C9.  The adjuster never reads the caller-supplied `sharesBuyable`: two
inputs agreeing on amount, average price and step produce identical
recomputed fields. -/
theorem adjustBuyCoin_ignores_input_shares (b1 b2 : AdjustableBuyCoin)
    (hA : b1.amountBuyable = b2.amountBuyable)
    (hP : b1.averageBuyPrice = b2.averageBuyPrice)
    (hS : b1.minStep = b2.minStep) :
    (adjustBuyCoin b1).sharesBuyable = (adjustBuyCoin b2).sharesBuyable ∧
    (adjustBuyCoin b1).amountBuyable = (adjustBuyCoin b2).amountBuyable ∧
    (adjustBuyCoin b1).leftOver = (adjustBuyCoin b2).leftOver := by
  simp [adjustBuyCoin, hA, hP, hS]

/-- Witness for C9: two buy legs differing only in their `sharesBuyable`
field. -/
theorem adjustBuyCoin_ignores_input_shares_witness :
    (adjustBuyCoin sampleBuyCoin).sharesBuyable =
      (adjustBuyCoin sampleBuyCoinAlt).sharesBuyable ∧
    (adjustBuyCoin sampleBuyCoin).amountBuyable =
      (adjustBuyCoin sampleBuyCoinAlt).amountBuyable ∧
    (adjustBuyCoin sampleBuyCoin).leftOver =
      (adjustBuyCoin sampleBuyCoinAlt).leftOver :=
  adjustBuyCoin_ignores_input_shares sampleBuyCoin sampleBuyCoinAlt rfl rfl rfl

/-- The comparator relation is transitive. -/
theorem routeLE_trans (a b c : Route) (h1 : routeLE a b = true) (h2 : routeLE b c = true) :
    routeLE a c = true := by
  by_cases hab : a.sellCoin.sharesSellable = b.sellCoin.sharesSellable <;>
    by_cases hbc : b.sellCoin.sharesSellable = c.sellCoin.sharesSellable
  · have hac : a.sellCoin.sharesSellable = c.sellCoin.sharesSellable := hab.trans hbc
    simp [routeLE, hab, hbc, hac] at h1 h2 ⊢
    exact h2.trans h1
  · have hac : a.sellCoin.sharesSellable ≠ c.sellCoin.sharesSellable := by
      rw [hab]; exact hbc
    simp [routeLE, hab, hbc, hac] at h1 h2 ⊢
    exact h2
  · have hac : a.sellCoin.sharesSellable ≠ c.sellCoin.sharesSellable := by
      rw [← hbc]; exact hab
    simp [routeLE, hab, hbc, hac] at h1 h2 ⊢
    exact h1
  · simp [routeLE, hab, hbc] at h1 h2
    by_cases hac : a.sellCoin.sharesSellable = c.sellCoin.sharesSellable
    · exact absurd (h2.trans h1) (by simp [hac])
    · simp [routeLE, hac]
      exact h2.trans h1

/-- The comparator relation is total. -/
theorem routeLE_total (a b : Route) : (routeLE a b || routeLE b a) = true := by
  by_cases h : a.sellCoin.sharesSellable = b.sellCoin.sharesSellable
  · simp [routeLE, h]
    exact le_total b.ratio a.ratio
  · simp [routeLE, h, Ne.symm h]

/-- C1.  The candidate routes an evaluation produced are ranked by
descending `sharesSellable` first and descending ratio second, remaining
ties keeping input order (the sort is stable); the returned best route is
the rank-0 element of this order and the `worstRoute` summary is drawn from
the last-ranked element. -/
theorem getBestRoute_ranking (bx : Binance) (sellCoinName buyCoinName : String)
    (bridgeCoins : List String) (sharesEntered : ℚ) (possibleRoutes : List Route)
    (h : evaluateCandidates bx sellCoinName buyCoinName sharesEntered bridgeCoins =
      .ok possibleRoutes)
    (best : Route) (rest : List Route)
    (hsort : sortRoutes possibleRoutes = best :: rest) :
    (sortRoutes possibleRoutes).Perm possibleRoutes ∧
    (sortRoutes possibleRoutes).Pairwise (fun r1 r2 =>
      r2.sellCoin.sharesSellable < r1.sellCoin.sharesSellable ∨
      (r1.sellCoin.sharesSellable = r2.sellCoin.sharesSellable ∧ r2.ratio ≤ r1.ratio)) ∧
    (∀ shares rat : ℚ,
      (sortRoutes possibleRoutes).filter
          (fun r => decide (r.sellCoin.sharesSellable = shares ∧ r.ratio = rat)) =
        possibleRoutes.filter
          (fun r => decide (r.sellCoin.sharesSellable = shares ∧ r.ratio = rat))) ∧
    (∃ res, getBestRoute bx sellCoinName buyCoinName bridgeCoins sharesEntered = .ok res ∧
      res.sellCoin.market = best.sellCoin.market ∧
      res.sellCoin.averageSellPrice = best.sellCoin.averageSellPrice ∧
      res.sellCoin.sharesSellable = best.sellCoin.sharesSellable ∧
      res.baseCoin = best.baseCoin ∧
      res.ratio = best.ratio ∧
      res.worstRoute.sharesBuyable =
        ((best :: rest).getLast (List.cons_ne_nil _ _)).buyCoin.sharesBuyable ∧
      res.worstRoute.baseCoin =
        ((best :: rest).getLast (List.cons_ne_nil _ _)).baseCoin.name ∧
      res.worstRoute.averageSellPrice =
        ((best :: rest).getLast (List.cons_ne_nil _ _)).sellCoin.averageSellPrice ∧
      res.worstRoute.averageBuyPrice =
        ((best :: rest).getLast (List.cons_ne_nil _ _)).buyCoin.averageBuyPrice) := by
  refine ⟨List.mergeSort_perm _ _, ?_, ?_, ?_⟩
  · have hp := List.sorted_mergeSort routeLE_trans routeLE_total possibleRoutes
    have himp : ∀ r1 r2 : Route, routeLE r1 r2 = true →
        (r2.sellCoin.sharesSellable < r1.sellCoin.sharesSellable ∨
         (r1.sellCoin.sharesSellable = r2.sellCoin.sharesSellable ∧ r2.ratio ≤ r1.ratio)) := by
      intro r1 r2 hle
      by_cases hss : r1.sellCoin.sharesSellable = r2.sellCoin.sharesSellable
      · exact Or.inr ⟨hss, by simpa [routeLE, hss] using hle⟩
      · exact Or.inl (by simpa [routeLE, hss] using hle)
    exact hp.imp fun hle => himp _ _ hle
  · intro shares rat
    have hpw : (possibleRoutes.filter
        (fun r => decide (r.sellCoin.sharesSellable = shares ∧ r.ratio = rat))).Pairwise
        (fun r1 r2 => routeLE r1 r2 = true) := by
      apply List.pairwise_of_forall_mem_list
      intro x hx y hy
      rw [List.mem_filter] at hx hy
      have hx2 : x.sellCoin.sharesSellable = shares ∧ x.ratio = rat := of_decide_eq_true hx.2
      have hy2 : y.sellCoin.sharesSellable = shares ∧ y.ratio = rat := of_decide_eq_true hy.2
      have hss : x.sellCoin.sharesSellable = y.sellCoin.sharesSellable := by
        rw [hx2.1, hy2.1]
      have hr : y.ratio ≤ x.ratio := by rw [hx2.2, hy2.2]
      simp [routeLE, hss, hr]
    have hsub : (possibleRoutes.filter
        (fun r => decide (r.sellCoin.sharesSellable = shares ∧ r.ratio = rat))).Sublist
        (sortRoutes possibleRoutes) :=
      List.sublist_mergeSort routeLE_trans routeLE_total hpw (List.filter_sublist _)
    have hsub2 := hsub.filter
      (fun r => decide (r.sellCoin.sharesSellable = shares ∧ r.ratio = rat))
    rw [List.filter_filter] at hsub2
    have hff : possibleRoutes.filter
        (fun a => decide (a.sellCoin.sharesSellable = shares ∧ a.ratio = rat) &&
          decide (a.sellCoin.sharesSellable = shares ∧ a.ratio = rat)) =
        possibleRoutes.filter
          (fun r => decide (r.sellCoin.sharesSellable = shares ∧ r.ratio = rat)) := by
      simp only [Bool.and_self]
    rw [hff] at hsub2
    have hperm : ((sortRoutes possibleRoutes).filter
        (fun r => decide (r.sellCoin.sharesSellable = shares ∧ r.ratio = rat))).Perm
        (possibleRoutes.filter
          (fun r => decide (r.sellCoin.sharesSellable = shares ∧ r.ratio = rat))) :=
      (List.mergeSort_perm possibleRoutes routeLE).filter _
    exact (hsub2.eq_of_length hperm.length_eq.symm).symm
  · have hget : getBestRoute bx sellCoinName buyCoinName bridgeCoins sharesEntered = .ok
        { sellCoin :=
            { market := best.sellCoin.market
              averageSellPrice := best.sellCoin.averageSellPrice
              sharesSellable := best.sellCoin.sharesSellable
              minStep := (bx.getMinSteps best.sellCoin.market best.buyCoin.market).sellCoin }
          buyCoin := adjustBuyCoin
            { market := best.buyCoin.market
              amountBuyable := best.buyCoin.amountBuyable
              sharesBuyable := best.buyCoin.sharesBuyable
              averageBuyPrice := best.buyCoin.averageBuyPrice
              minStep := (bx.getMinSteps best.sellCoin.market best.buyCoin.market).buyCoin }
          baseCoin := best.baseCoin
          ratio := best.ratio
          worstRoute :=
            { sharesBuyable :=
                ((best :: rest).getLast (List.cons_ne_nil _ _)).buyCoin.sharesBuyable
              baseCoin := ((best :: rest).getLast (List.cons_ne_nil _ _)).baseCoin.name
              averageSellPrice :=
                ((best :: rest).getLast (List.cons_ne_nil _ _)).sellCoin.averageSellPrice
              averageBuyPrice :=
                ((best :: rest).getLast (List.cons_ne_nil _ _)).buyCoin.averageBuyPrice } } := by
      unfold getBestRoute
      rw [h]
      simp only [Except.bind]
      rw [hsort]
    exact ⟨_, hget, rfl, rfl, rfl, rfl, rfl, rfl, rfl, rfl, rfl⟩

/-- Witness for C1: a concrete evaluation with one bridge candidate, which
is then both the rank-0 and the last-ranked route. -/
theorem getBestRoute_ranking_witness :
    (sortRoutes [routeAX]).Perm [routeAX] ∧
    (∃ res, getBestRoute bxSample "A" "B" ["X"] 8 = .ok res ∧
      res.sellCoin.market = routeAX.sellCoin.market ∧
      res.sellCoin.averageSellPrice = routeAX.sellCoin.averageSellPrice ∧
      res.sellCoin.sharesSellable = routeAX.sellCoin.sharesSellable ∧
      res.baseCoin = routeAX.baseCoin ∧
      res.ratio = routeAX.ratio ∧
      res.worstRoute.sharesBuyable =
        ((routeAX :: []).getLast (List.cons_ne_nil _ _)).buyCoin.sharesBuyable ∧
      res.worstRoute.baseCoin =
        ((routeAX :: []).getLast (List.cons_ne_nil _ _)).baseCoin.name ∧
      res.worstRoute.averageSellPrice =
        ((routeAX :: []).getLast (List.cons_ne_nil _ _)).sellCoin.averageSellPrice ∧
      res.worstRoute.averageBuyPrice =
        ((routeAX :: []).getLast (List.cons_ne_nil _ _)).buyCoin.averageBuyPrice) := by
  have H := getBestRoute_ranking bxSample "A" "B" ["X"] 8 [routeAX]
    (by simp [evaluateCandidates, buildRoute, bxSample, routeAX, obSample]; rfl) routeAX []
    (List.mergeSort_singleton routeAX)
  exact ⟨H.1, H.2.2.2⟩

/-- Helper: an `Except` is `isOk` exactly when it is an `ok`. -/
theorem except_isOk_true_iff {ε α : Type} (e : Except ε α) :
    e.isOk = true ↔ ∃ a, e = .ok a := by
  cases e <;> simp [Except.isOk, Except.toBool]

/-- Helper: an `Except` is not `isOk` exactly when it is an `error`. -/
theorem except_isOk_false_iff {ε α : Type} (e : Except ε α) :
    e.isOk = false ↔ ∃ err, e = .error err := by
  cases e <;> simp [Except.isOk, Except.toBool]

/-- Helper: a candidate whose two order-book fetches succeed builds its
route record. -/
theorem buildRoute_ok (bx : Binance) (sellCoinName buyCoinName : String)
    (sharesEntered : ℚ) (c : String) (ob1 ob2 : OrderBook)
    (h1 : bx.getOrders (sellCoinName ++ c) = .ok ob1)
    (h2 : bx.getOrders (buyCoinName ++ c) = .ok ob2) :
    buildRoute bx sellCoinName buyCoinName sharesEntered c = .ok
      { sellCoin :=
          { market := sellCoinName ++ c
            averageSellPrice := (bx.calculateSellData ob1.bids sharesEntered).averageSellPrice
            sharesSellable := (bx.calculateSellData ob1.bids sharesEntered).sharesSellable }
        buyCoin :=
          { market := buyCoinName ++ c
            amountBuyable := (bx.calculateBuyData ob2.asks
              (bx.calculateSellData ob1.bids sharesEntered).saleTotal).amountSpent
            sharesBuyable := (bx.calculateBuyData ob2.asks
              (bx.calculateSellData ob1.bids sharesEntered).saleTotal).sharesPossibleToBuy
            averageBuyPrice := (bx.calculateBuyData ob2.asks
              (bx.calculateSellData ob1.bids sharesEntered).saleTotal).averageBuyPrice }
        baseCoin := { name := c, market := c ++ "USDT" }
        ratio := (bx.calculateSellData ob1.bids sharesEntered).averageSellPrice /
          (bx.calculateBuyData ob2.asks
            (bx.calculateSellData ob1.bids sharesEntered).saleTotal).averageBuyPrice } := by
  simp only [buildRoute]
  rw [h1, h2]
  rfl

/-- Helper: a candidate with a failing fetch rejects its route build. -/
theorem buildRoute_err (bx : Binance) (sellCoinName buyCoinName : String)
    (sharesEntered : ℚ) (c : String)
    (hfail : (bx.getOrders (sellCoinName ++ c)).isOk = false ∨
      (bx.getOrders (buyCoinName ++ c)).isOk = false) :
    ∃ e, buildRoute bx sellCoinName buyCoinName sharesEntered c = .error e := by
  rcases hfail with hf | hf
  · obtain ⟨err, herr⟩ := (except_isOk_false_iff _).mp hf
    refine ⟨err, ?_⟩
    simp only [buildRoute]
    rw [herr]
    rfl
  · cases hs : bx.getOrders (sellCoinName ++ c) with
    | error e =>
      refine ⟨e, ?_⟩
      simp only [buildRoute]
      rw [hs]
      rfl
    | ok ob =>
      obtain ⟨err, herr⟩ := (except_isOk_false_iff _).mp hf
      refine ⟨err, ?_⟩
      simp only [buildRoute]
      rw [hs, herr]
      rfl

/-- Helper: when every candidate's fetches succeed the whole map resolves,
with one route per candidate. -/
theorem evaluateCandidates_ok (bx : Binance) (sellCoinName buyCoinName : String)
    (sharesEntered : ℚ) (l : List String)
    (hall : ∀ b ∈ l, (bx.getOrders (sellCoinName ++ b)).isOk = true ∧
      (bx.getOrders (buyCoinName ++ b)).isOk = true) :
    ∃ rs, evaluateCandidates bx sellCoinName buyCoinName sharesEntered l = .ok rs ∧
      rs.length = l.length := by
  induction l with
  | nil => exact ⟨[], rfl, rfl⟩
  | cons c cs ih =>
    obtain ⟨h1, h2⟩ := hall c (List.mem_cons_self c cs)
    obtain ⟨ob1, hob1⟩ := (except_isOk_true_iff _).mp h1
    obtain ⟨ob2, hob2⟩ := (except_isOk_true_iff _).mp h2
    obtain ⟨rs, hrs, hlen⟩ := ih fun b hb => hall b (List.mem_cons_of_mem c hb)
    have hbuild : ∃ r, buildRoute bx sellCoinName buyCoinName sharesEntered c = .ok r :=
      ⟨_, buildRoute_ok bx sellCoinName buyCoinName sharesEntered c ob1 ob2 hob1 hob2⟩
    obtain ⟨r, hr⟩ := hbuild
    refine ⟨r :: rs, ?_, by simp [hlen]⟩
    show (do
      let r ← buildRoute bx sellCoinName buyCoinName sharesEntered c
      let rs ← evaluateCandidates bx sellCoinName buyCoinName sharesEntered cs
      pure (r :: rs) : Except String (List Route)) = .ok (r :: rs)
    rw [hr, hrs]
    rfl

/-- Helper: one candidate with a failing fetch rejects the whole map. -/
theorem evaluateCandidates_err (bx : Binance) (sellCoinName buyCoinName : String)
    (sharesEntered : ℚ) (l : List String)
    (hsome : ∃ b ∈ l, (bx.getOrders (sellCoinName ++ b)).isOk = false ∨
      (bx.getOrders (buyCoinName ++ b)).isOk = false) :
    ∃ e, evaluateCandidates bx sellCoinName buyCoinName sharesEntered l = .error e := by
  induction l with
  | nil => exact absurd hsome (by simp)
  | cons c cs ih =>
    obtain ⟨b, hb, hfail⟩ := hsome
    rcases List.mem_cons.mp hb with hbc | hbcs
    · obtain ⟨e, he⟩ := buildRoute_err bx sellCoinName buyCoinName sharesEntered c (hbc ▸ hfail)
      refine ⟨e, ?_⟩
      show (do
        let r ← buildRoute bx sellCoinName buyCoinName sharesEntered c
        let rs ← evaluateCandidates bx sellCoinName buyCoinName sharesEntered cs
        pure (r :: rs) : Except String (List Route)) = .error e
      rw [he]
      rfl
    · cases hbuild : buildRoute bx sellCoinName buyCoinName sharesEntered c with
      | error e =>
        refine ⟨e, ?_⟩
        show (do
          let r ← buildRoute bx sellCoinName buyCoinName sharesEntered c
          let rs ← evaluateCandidates bx sellCoinName buyCoinName sharesEntered cs
          pure (r :: rs) : Except String (List Route)) = .error e
        rw [hbuild]
        rfl
      | ok r =>
        obtain ⟨e, he⟩ := ih ⟨b, hbcs, hfail⟩
        refine ⟨e, ?_⟩
        show (do
          let r ← buildRoute bx sellCoinName buyCoinName sharesEntered c
          let rs ← evaluateCandidates bx sellCoinName buyCoinName sharesEntered cs
          pure (r :: rs) : Except String (List Route)) = .error e
        rw [hbuild, he]
        rfl

/-- C2, counterexample.  With bridge candidates "X" (both fetches succeed)
and "Y" (its sell-market fetch "AY" fails), the whole evaluation rejects
with the fetch error: the failing candidate is not excluded, no ranking over
the remaining candidate happens, and no distinct no-viable-route error is
produced. -/
theorem getBestRoute_single_failure_fatal :
    getBestRoute bxOneFetchFails "A" "B" ["X", "Y"] 5 = .error "MarketUnavailable: AY" ∧
    bxOneFetchFails.getOrders "AX" = .ok obSample ∧
    bxOneFetchFails.getOrders "BX" = .ok obSample := by
  refine ⟨?_, by simp [bxOneFetchFails, bxSample], by simp [bxOneFetchFails, bxSample]⟩
  have he : evaluateCandidates bxOneFetchFails "A" "B" 5 ["X", "Y"] =
      .error "MarketUnavailable: AY" := by
    simp [evaluateCandidates, buildRoute, bxOneFetchFails, bxSample, obSample]
    rfl
  unfold getBestRoute
  rw [he]
  rfl

/-- C2, amended.  A fetch failure of any candidate is fatal to the whole
evaluation (the fetch error propagates); when every candidate's fetches
succeed and at least one candidate exists, the evaluation succeeds. -/
theorem getBestRoute_fetch_failure_propagates (bx : Binance)
    (sellCoinName buyCoinName : String) (bridgeCoins : List String) (sharesEntered : ℚ) :
    (bridgeCoins ≠ [] →
      (∀ b ∈ bridgeCoins, (bx.getOrders (sellCoinName ++ b)).isOk = true ∧
        (bx.getOrders (buyCoinName ++ b)).isOk = true) →
      (getBestRoute bx sellCoinName buyCoinName bridgeCoins sharesEntered).isOk = true) ∧
    ((∃ b ∈ bridgeCoins, (bx.getOrders (sellCoinName ++ b)).isOk = false ∨
        (bx.getOrders (buyCoinName ++ b)).isOk = false) →
      (getBestRoute bx sellCoinName buyCoinName bridgeCoins sharesEntered).isOk = false) := by
  constructor
  · intro hne hall
    obtain ⟨rs, hrs, hlen⟩ :=
      evaluateCandidates_ok bx sellCoinName buyCoinName sharesEntered bridgeCoins hall
    have hrs_ne : rs ≠ [] := by
      intro hnil
      rw [hnil] at hlen
      exact hne (List.length_eq_zero.mp hlen.symm)
    have hsort_ne : sortRoutes rs ≠ [] := by
      intro hnil
      have hnil' : rs.mergeSort routeLE = [] := hnil
      have := (List.mergeSort_perm rs routeLE).length_eq
      rw [hnil'] at this
      exact hrs_ne (List.length_eq_zero.mp this.symm)
    cases hs : sortRoutes rs with
    | nil => exact absurd hs hsort_ne
    | cons best rest =>
      unfold getBestRoute
      rw [hrs]
      simp only [Except.bind]
      rw [hs]
      rfl
  · intro hsome
    obtain ⟨e, he⟩ :=
      evaluateCandidates_err bx sellCoinName buyCoinName sharesEntered bridgeCoins hsome
    unfold getBestRoute
    rw [he]
    rfl

/-- Witness for C2's amended theorem: a one-candidate evaluation with
successful fetches resolves. -/
theorem getBestRoute_fetch_failure_propagates_witness :
    (getBestRoute bxSample "A" "B" ["X"] 5).isOk = true :=
  (getBestRoute_fetch_failure_propagates bxSample "A" "B" ["X"] 5).1 (by simp)
    (by intro b _; exact ⟨rfl, rfl⟩)

/-- C5.  Whenever a candidate's two fetches succeed, the buy-leg simulation
is targeted at exactly the `saleTotal` of the sell-leg simulation for the
entered share count, and the route's ratio divides the two average prices of
this single chain. -/
theorem buildRoute_chains_sell_into_buy (bx : Binance) (sellCoinName buyCoinName : String)
    (sharesEntered : ℚ) (baseCoin : String) (sellOrders buyOrders : OrderBook)
    (hs : bx.getOrders (sellCoinName ++ baseCoin) = .ok sellOrders)
    (hb : bx.getOrders (buyCoinName ++ baseCoin) = .ok buyOrders) :
    ∃ route, buildRoute bx sellCoinName buyCoinName sharesEntered baseCoin = .ok route ∧
      route.buyCoin.amountBuyable = (bx.calculateBuyData buyOrders.asks
        (bx.calculateSellData sellOrders.bids sharesEntered).saleTotal).amountSpent ∧
      route.buyCoin.sharesBuyable = (bx.calculateBuyData buyOrders.asks
        (bx.calculateSellData sellOrders.bids sharesEntered).saleTotal).sharesPossibleToBuy ∧
      route.buyCoin.averageBuyPrice = (bx.calculateBuyData buyOrders.asks
        (bx.calculateSellData sellOrders.bids sharesEntered).saleTotal).averageBuyPrice ∧
      route.sellCoin.averageSellPrice =
        (bx.calculateSellData sellOrders.bids sharesEntered).averageSellPrice ∧
      route.sellCoin.sharesSellable =
        (bx.calculateSellData sellOrders.bids sharesEntered).sharesSellable ∧
      route.ratio = (bx.calculateSellData sellOrders.bids sharesEntered).averageSellPrice /
        (bx.calculateBuyData buyOrders.asks
          (bx.calculateSellData sellOrders.bids sharesEntered).saleTotal).averageBuyPrice :=
  ⟨_, buildRoute_ok bx sellCoinName buyCoinName sharesEntered baseCoin sellOrders buyOrders hs hb,
    rfl, rfl, rfl, rfl, rfl, rfl⟩

/-- Witness for C5 at a concrete collaborator and candidate. -/
theorem buildRoute_chains_sell_into_buy_witness :
    ∃ route, buildRoute bxSample "A" "B" 8 "X" = .ok route ∧
      route.buyCoin.amountBuyable = (bxSample.calculateBuyData obSample.asks
        (bxSample.calculateSellData obSample.bids 8).saleTotal).amountSpent ∧
      route.buyCoin.sharesBuyable = (bxSample.calculateBuyData obSample.asks
        (bxSample.calculateSellData obSample.bids 8).saleTotal).sharesPossibleToBuy ∧
      route.buyCoin.averageBuyPrice = (bxSample.calculateBuyData obSample.asks
        (bxSample.calculateSellData obSample.bids 8).saleTotal).averageBuyPrice ∧
      route.sellCoin.averageSellPrice =
        (bxSample.calculateSellData obSample.bids 8).averageSellPrice ∧
      route.sellCoin.sharesSellable =
        (bxSample.calculateSellData obSample.bids 8).sharesSellable ∧
      route.ratio = (bxSample.calculateSellData obSample.bids 8).averageSellPrice /
        (bxSample.calculateBuyData obSample.asks
          (bxSample.calculateSellData obSample.bids 8).saleTotal).averageBuyPrice :=
  buildRoute_chains_sell_into_buy bxSample "A" "B" 8 "X" obSample obSample rfl rfl

/-- C6.  The settlement of a two-leg trade selects each leg's fee rate
solely by whether that leg's commission asset is BNB, reduces the reported
sale total by amount times rate, and increases the reported purchase total
by amount times rate. -/
theorem settleTrade_fee_selection (sell buy : AggregatedFill) :
    (settleTrade sell buy).1.total =
      sell.qty * sell.price - sell.qty * sell.price * commissionDecimal sell.commissionAsset ∧
    (settleTrade sell buy).2.total =
      buy.qty * buy.price + buy.qty * buy.price * commissionDecimal buy.commissionAsset ∧
    (∀ asset1 asset2 : String, (asset1 = "BNB" ↔ asset2 = "BNB") →
      commissionDecimal asset1 = commissionDecimal asset2) ∧
    commissionDecimal "BNB" = 5 / 100000 ∧
    (∀ asset : String, asset ≠ "BNB" → commissionDecimal asset = 1 / 10000) := by
  refine ⟨rfl, rfl, ?_, by simp [commissionDecimal], ?_⟩
  · intro asset1 asset2 hiff
    by_cases h1 : asset1 = "BNB"
    · have h2 : asset2 = "BNB" := hiff.mp h1
      simp [commissionDecimal, h1, h2]
    · have h2 : ¬asset2 = "BNB" := fun hh => h1 (hiff.mpr hh)
      simp [commissionDecimal, h1, h2]
  · intro asset ha
    simp [commissionDecimal, ha]

/-- Witness for C6: two non-BNB assets share the standard rate, and the
BNB rate is the discounted one. -/
theorem settleTrade_fee_selection_witness :
    commissionDecimal "ETH" = commissionDecimal "BTC" ∧
    commissionDecimal "BNB" = 5 / 100000 :=
  ⟨(settleTrade_fee_selection ⟨"ETCBNB", 1, 1, 0, "BNB", 1⟩ ⟨"LTCBNB", 1, 1, 0, "LTC", 2⟩).2.2.1
      "ETH" "BTC" (by simp),
    (settleTrade_fee_selection ⟨"ETCBNB", 1, 1, 0, "BNB", 1⟩ ⟨"LTCBNB", 1, 1, 0, "LTC", 2⟩).2.2.2.1⟩

/-- C7.  The realized USD savings is the difference of the two spreads, each
multiplied by its bridge price with the factor pinned to 1 for a USDT
bridge, rounded half-up to four decimals; in particular the spec's example
(spreads 2 and 1, bridge price 1) rounds to exactly 1, and 0.12345 rounds
up to 0.1235. -/
theorem calculateUSDSavings_rounding (getPrice : String → ℚ) (bestRoute : BestRoute) :
    calculateUSDSavings getPrice bestRoute =
      ((jsRound
        (((bestRoute.sellCoin.averageSellPrice - bestRoute.buyCoin.averageBuyPrice) *
            (if bestRoute.baseCoin.name = "USDT" then 1
             else getPrice (bestRoute.baseCoin.name ++ "USDT")) -
          (bestRoute.worstRoute.averageSellPrice - bestRoute.worstRoute.averageBuyPrice) *
            (if bestRoute.worstRoute.baseCoin = "USDT" then 1
             else getPrice (bestRoute.worstRoute.baseCoin ++ "USDT"))) * 10 ^ 4) : ℚ) / 10 ^ 4) ∧
    calculateUSDSavings getPrice usdtExampleRoute = 1 ∧
    numberToFixed (12345 / 100000) 4 none = 1235 / 10000 := by
  refine ⟨rfl, ?_, ?_⟩
  · norm_num [calculateUSDSavings, usdtExampleRoute, numberToFixed, jsRound, jsBaseOrTen]
  · norm_num [numberToFixed, jsRound, jsBaseOrTen]

/-- Helper: running a session over concatenated event sequences runs the
suffix from the state the prefix reached, and concatenates the
broadcasts. -/
theorem runSession_append (p : SessionParams) (s : SessionState)
    (l1 l2 : List SessionEvent) :
    runSession p s (l1 ++ l2) =
      ((runSession p (runSession p s l1).1 l2).1,
        (runSession p s l1).2 ++ (runSession p (runSession p s l1).1 l2).2) := by
  induction l1 generalizing s with
  | nil => simp [runSession]
  | cons e es ih => simp [runSession, ih, List.append_assoc]

/-- C8.  A buy-market update never changes the session state and its
broadcast is computed from the cached `saleProceeds` alone — it does not
depend on the entered quantity and does not invoke the sell-leg simulator;
a sell-market update caches the `saleTotal` computed from the current
quantity; a quantity change broadcasts nothing, only stores the new
quantity, and the broadcasts of all events before the change are
unaffected by it. -/
theorem liveSession_buy_uses_cached_saleTotal (p : SessionParams) (s : SessionState)
    (ob : OrderBook) (q : ℚ) :
    (stepSession p s (.buyCoinOrders ob)).1 = s ∧
    (∀ s' : SessionState, s'.saleProceeds = s.saleProceeds →
      (stepSession p s' (.buyCoinOrders ob)).2 = (stepSession p s (.buyCoinOrders ob)).2) ∧
    (∀ csd', (stepSession { p with calculateSellData := csd' } s (.buyCoinOrders ob)).2 =
      (stepSession p s (.buyCoinOrders ob)).2) ∧
    (stepSession p s (.sellCoinOrders ob)).1.saleProceeds =
      (p.calculateSellData ob.bids s.sharesForOrderUpdates).saleTotal ∧
    (stepSession p s (.sharesUpdated q)).1 = { s with sharesForOrderUpdates := q } ∧
    (stepSession p s (.sharesUpdated q)).2 = none ∧
    (∀ pre post : List SessionEvent,
      (runSession p s (pre ++ .sharesUpdated q :: post)).2 =
        (runSession p s pre).2 ++
          (runSession p
            { (runSession p s pre).1 with sharesForOrderUpdates := q } post).2) := by
  refine ⟨?_, ?_, ?_, ?_, rfl, rfl, ?_⟩
  · rcases ob with ⟨_ | ⟨⟨bp, bq⟩, bls⟩, _ | ⟨⟨ap, aq⟩, als⟩⟩ <;> simp [stepSession]
  · intro s' hsp
    rcases ob with ⟨_ | ⟨⟨bp, bq⟩, bls⟩, _ | ⟨⟨ap, aq⟩, als⟩⟩ <;> simp [stepSession, hsp]
  · intro csd'
    rcases ob with ⟨_ | ⟨⟨bp, bq⟩, bls⟩, _ | ⟨⟨ap, aq⟩, als⟩⟩ <;> simp [stepSession]
  · rcases ob with ⟨_ | ⟨⟨bp, bq⟩, bls⟩, _ | ⟨⟨ap, aq⟩, als⟩⟩ <;> simp [stepSession]
  · intro pre post
    rw [runSession_append]
    simp [runSession, stepSession]

/-- Witness for C8: a state with a different entered quantity but the same
cached proceeds produces the same buy broadcast, and a quantity change
broadcasts nothing. -/
theorem liveSession_buy_uses_cached_saleTotal_witness :
    (stepSession sampleSessionParams { sharesForOrderUpdates := 9, saleProceeds := 7 }
        (.buyCoinOrders obSample)).2 =
      (stepSession sampleSessionParams { sharesForOrderUpdates := 5, saleProceeds := 7 }
        (.buyCoinOrders obSample)).2 ∧
    (stepSession sampleSessionParams { sharesForOrderUpdates := 5, saleProceeds := 7 }
        (.sharesUpdated 3)).2 = none :=
  ⟨(liveSession_buy_uses_cached_saleTotal sampleSessionParams
      { sharesForOrderUpdates := 5, saleProceeds := 7 } obSample 3).2.1
      { sharesForOrderUpdates := 9, saleProceeds := 7 } rfl,
    (liveSession_buy_uses_cached_saleTotal sampleSessionParams
      { sharesForOrderUpdates := 5, saleProceeds := 7 } obSample 3).2.2.2.2.2.1⟩

/-- C10.  A feed update with non-empty bids and asks makes both handlers
complete and broadcast; an update with an empty side makes the unguarded
top-of-book access fail, so nothing is broadcast (no zero result). -/
theorem liveSession_topOfBook_guard (p : SessionParams) (s : SessionState) (ob : OrderBook) :
    (ob.bids ≠ [] → ob.asks ≠ [] →
      (∃ info, (stepSession p s (.sellCoinOrders ob)).2 = some (.updateSellCoinInfo info)) ∧
      (∃ info, (stepSession p s (.buyCoinOrders ob)).2 = some (.updateBuyCoinInfo info))) ∧
    (ob.bids = [] ∨ ob.asks = [] →
      (stepSession p s (.sellCoinOrders ob)).2 = none ∧
      (stepSession p s (.buyCoinOrders ob)).2 = none) := by
  rcases ob with ⟨_ | ⟨⟨bp, bq⟩, bls⟩, _ | ⟨⟨ap, aq⟩, als⟩⟩ <;> simp [stepSession]

/-- Witness for C10: a two-sided book broadcasts from both handlers, an
empty book broadcasts from neither. -/
theorem liveSession_topOfBook_guard_witness :
    ((∃ info, (stepSession sampleSessionParams { sharesForOrderUpdates := 5, saleProceeds := 7 }
        (.sellCoinOrders obSample)).2 = some (.updateSellCoinInfo info)) ∧
      (∃ info, (stepSession sampleSessionParams { sharesForOrderUpdates := 5, saleProceeds := 7 }
        (.buyCoinOrders obSample)).2 = some (.updateBuyCoinInfo info))) ∧
    ((stepSession sampleSessionParams { sharesForOrderUpdates := 5, saleProceeds := 7 }
        (.sellCoinOrders { bids := [], asks := [] })).2 = none ∧
      (stepSession sampleSessionParams { sharesForOrderUpdates := 5, saleProceeds := 7 }
        (.buyCoinOrders { bids := [], asks := [] })).2 = none) :=
  ⟨(liveSession_topOfBook_guard sampleSessionParams
      { sharesForOrderUpdates := 5, saleProceeds := 7 } obSample).1
      (by simp [obSample]) (by simp [obSample]),
    (liveSession_topOfBook_guard sampleSessionParams
      { sharesForOrderUpdates := 5, saleProceeds := 7 }
      { bids := [], asks := [] }).2 (Or.inl rfl)⟩
